import Mathlib

/-!
Verification of the authentication and session-management core:
cookie parsing, session service (login, logout, attach), the
migration runner, and the transient-failure classifier.

JavaScript strings are embedded as lists of characters (`Str`), so
that every operation evaluates inside the kernel. The character-level
helpers below embed the JS built-ins used by the source
(`split`, `trim`, `join`, `toLowerCase`, `endsWith`, `includes`).
-/

abbrev Str := List Char

/-- Embeds String.prototype.toLowerCase, applied characterwise. -/
def lowerStr (s : Str) : Str := s.map Char.toLower

/-- Embeds String.prototype.trim: drops leading and trailing whitespace. -/
def trimStr (s : Str) : Str :=
  ((s.dropWhile Char.isWhitespace).reverse.dropWhile Char.isWhitespace).reverse

/-- Accumulator loop for `splitOnChar`; `acc` holds the current field reversed. -/
def splitOnCharAux (sep : Char) : List Char → List Char → List Str
  | [], acc => [acc.reverse]
  | c :: cs, acc =>
    if c = sep then acc.reverse :: splitOnCharAux sep cs []
    else splitOnCharAux sep cs (c :: acc)

/-- Embeds String.prototype.split with a one-character separator. -/
def splitOnChar (sep : Char) (s : Str) : List Str := splitOnCharAux sep s []

/-- Embeds Array.prototype.join with a one-character separator. -/
def joinOnChar (sep : Char) : List Str → Str
  | [] => []
  | [x] => x
  | x :: y :: xs => x ++ sep :: joinOnChar sep (y :: xs)

/-- Embeds String.prototype.endsWith. -/
def strEndsWith (s suffix : Str) : Bool := decide (suffix <:+ s)

/-- Embeds String.prototype.includes. -/
def strContainsStr (s pat : Str) : Bool := decide (pat <:+: s)

def semiCh : Char := ';'

def eqCh : Char := '='

def sidKey : Str := ("sid".toList)

/-- Embeds the destructuring `[rawKey, ...valueParts] = entry.trim().split(delim)`:
the key is the part before the first separator of the trimmed entry. -/
def cookieEntryKey (entry : Str) : Str :=
  (splitOnChar eqCh (trimStr entry)).headD []

/-- Embeds `valueParts.join(delim)`: everything after the first separator
of the trimmed entry, with later separators preserved. -/
def cookieEntryValue (entry : Str) : Str :=
  joinOnChar eqCh (splitOnChar eqCh (trimStr entry)).tail

/-- Embeds the `for (const entry of entries)` loop of parseCookieHeader.
The `decode` parameter embeds the runtime decodeURIComponent, returning
none when it would throw; the catch branch keeps the raw value. -/
def parseCookieEntryList (decode : Str → Option Str) (key : Str) : List Str → Option Str
  | [] => none
  | entry :: rest =>
    if cookieEntryKey entry ≠ key then parseCookieEntryList decode key rest
    else if cookieEntryValue entry = [] then none
    else some ((decode (cookieEntryValue entry)).getD (cookieEntryValue entry))

/-- Embeds parseCookieHeader from the auth service: a missing or empty
header yields null, otherwise the header is split on semicolons and
scanned entry by entry. -/
def parseCookieHeader (decode : Str → Option Str) (header : Option Str) (key : Str) : Option Str :=
  match header with
  | none => none
  | some h => if h = [] then none else parseCookieEntryList decode key (splitOnChar semiCh h)

/-- Request state seen by the auth service: the optionally decorated
cookies object and the raw cookie header. -/
structure AuthRequest where
  cookiesSid : Option Str
  cookieHeader : Option Str

/-- Embeds getSidFromRequest: prefer a truthy decorated `cookies.sid`,
falling back to manual parsing of the raw header. -/
def getSidFromRequest (decode : Str → Option Str) (request : AuthRequest) : Option Str :=
  match request.cookiesSid with
  | some d =>
    if d ≠ [] then some d else parseCookieHeader decode request.cookieHeader sidKey
  | none => parseCookieHeader decode request.cookieHeader sidKey

structure DbUser where
  id : Str
  email : Str
  password_hash : Str
deriving DecidableEq

structure DbSession where
  id : Str
  user_id : Str
  token_hash : Str
  expires_at : Nat
  last_seen_at : Nat
deriving DecidableEq

structure DbProfile where
  id : Str
  user_id : Str
deriving DecidableEq

/-- Database state touched by the auth module: the users, sessions and
profiles tables. Timestamps are naturals. -/
structure Db where
  users : List DbUser
  sessions : List DbSession
  profiles : List DbProfile
deriving DecidableEq

structure DbSessionLookup where
  session_id : Str
  user_id : Str
  email : Str
  expires_at : Nat
  profile_id : Option Str
deriving DecidableEq

/-- Embeds findUserByEmail: case-insensitive email lookup, first row. -/
def findUserByEmail (db : Db) (email : Str) : Option DbUser :=
  db.users.find? (fun u => decide (lowerStr u.email = lowerStr email))

/-- Embeds findUserById. -/
def findUserById (db : Db) (userId : Str) : Option DbUser :=
  db.users.find? (fun u => decide (u.id = userId))

/-- Embeds createSession: inserts one session row. -/
def createSession (db : Db) (row : DbSession) : Db :=
  ⟨db.users, db.sessions ++ [row], db.profiles⟩

/-- Embeds findSessionByTokenHash: the live-session lookup joining the
owning user and left-joining a profile, with the liveness predicate
expires_at > now. -/
def findSessionByTokenHash (db : Db) (now : Nat) (tokenHash : Str) : Option DbSessionLookup :=
  match db.sessions.find? (fun s => decide (s.token_hash = tokenHash) && decide (now < s.expires_at)) with
  | none => none
  | some s =>
    match db.users.find? (fun u => decide (u.id = s.user_id)) with
    | none => none
    | some u =>
      some ⟨s.id, s.user_id, u.email, s.expires_at,
        (db.profiles.find? (fun p => decide (p.user_id = u.id))).map DbProfile.id⟩

/-- Embeds touchSession: updates last_seen_at of the addressed row. -/
def touchSession (db : Db) (sessionId : Str) (now : Nat) : Db :=
  ⟨db.users,
    db.sessions.map (fun s =>
      if s.id = sessionId then ⟨s.id, s.user_id, s.token_hash, s.expires_at, now⟩ else s),
    db.profiles⟩

/-- Embeds deleteSessionByTokenHash: removes every row with the hash. -/
def deleteSessionByTokenHash (db : Db) (tokenHash : Str) : Db :=
  ⟨db.users, db.sessions.filter (fun s => decide (s.token_hash ≠ tokenHash)), db.profiles⟩

/-- Embeds deleteSessionsByUserId: removes every session of the user. -/
def deleteSessionsByUserId (db : Db) (userId : Str) : Db :=
  ⟨db.users, db.sessions.filter (fun s => decide (s.user_id ≠ userId)), db.profiles⟩

structure SessionPrincipal where
  sid : Str
  sessionId : Str
  userId : Str
  email : Str
  profileId : Option Str
  expiresAt : Nat
deriving DecidableEq

/-- Embeds attachAuth. The `sha256` parameter embeds the token
fingerprint (modelled from the spec: a deterministic one-way hash from
the crypto utilities, which are outside the provided sources). The
`touchFails` flag injects a fault into the touchSession statement; the
source awaits touchSession with no catch, so a fault propagates as an
error and no principal is bound. -/
def attachAuth (decode : Str → Option Str) (sha256 : Str → Str) (request : AuthRequest)
    (db : Db) (now : Nat) (touchFails : Bool) : Except Unit (Option SessionPrincipal × Db) :=
  match getSidFromRequest decode request with
  | none => Except.ok (none, db)
  | some sid =>
    match findSessionByTokenHash db now (sha256 sid) with
    | none => Except.ok (none, db)
    | some session =>
      if touchFails then Except.error ()
      else
        Except.ok (some ⟨sid, session.session_id, session.user_id, session.email,
          session.profile_id, session.expires_at⟩,
          touchSession db session.session_id now)

inductive ApiBody where
  | empty
  | errorMsg (msg : Str)
  | loginOk (userId email : Str) (profileId : Option Str)
deriving DecidableEq

inductive CookieEffect where
  | noChange
  | setSid (sid : Str) (expiresAt : Nat)
  | clearSid
deriving DecidableEq

/-- Externally visible reply: status code, body, cookie header effect. -/
structure ApiResponse where
  status : Nat
  body : ApiBody
  cookie : CookieEffect
deriving DecidableEq

def invalidCredentialsMsg : Str := ("Invalid credentials".toList)

/-- Embeds loginUser. The `verify` parameter embeds verifyPassword
(modelled from the spec: constant-time credential check from the crypto
utilities, outside the provided sources); `sid` and `newSessionId`
stand for the freshly generated random token and uuid. -/
def loginUser (sha256 : Str → Str) (verify : Str → Str → Bool) (db : Db)
    (email password sid newSessionId : Str) (now expiresAt : Nat) : ApiResponse × Db :=
  match findUserByEmail db email with
  | none => (⟨401, ApiBody.errorMsg invalidCredentialsMsg, CookieEffect.noChange⟩, db)
  | some user =>
    if verify password user.password_hash then
      let db1 := deleteSessionsByUserId db user.id
      let tokenHash := sha256 sid
      let db2 := createSession db1 ⟨newSessionId, user.id, tokenHash, expiresAt, 0⟩
      let profile := findSessionByTokenHash db2 now tokenHash
      (⟨200, ApiBody.loginOk user.id user.email (profile.bind DbSessionLookup.profile_id),
        CookieEffect.setSid sid expiresAt⟩, db2)
    else (⟨401, ApiBody.errorMsg invalidCredentialsMsg, CookieEffect.noChange⟩, db)

/-- Embeds logoutUser: delete the session of the presented cookie when
one exists, always clear the cookie, reply 204 with no body. -/
def logoutUser (decode : Str → Option Str) (sha256 : Str → Str) (request : AuthRequest)
    (db : Db) : ApiResponse × Db :=
  match getSidFromRequest decode request with
  | some sid =>
    (⟨204, ApiBody.empty, CookieEffect.clearSid⟩, deleteSessionByTokenHash db (sha256 sid))
  | none => (⟨204, ApiBody.empty, CookieEffect.clearSid⟩, db)

def sqlSuffix : Str := (".sql".toList)

/-- Embeds the listing step of runMigrations: keep the recognized .sql
extension and sort by filename. The source sorts with localeCompare;
the comparison is modelled as lexicographic code-point order. -/
def migrationOrder (files : List Str) : List Str :=
  List.insertionSort (fun a b : Str => a ≤ b) (files.filter (fun n => strEndsWith n sqlSuffix))

/-- Ledger and execution trace of the migration runner: `ledger` is the
schema_migrations table, `applied` records every executed SQL batch. -/
structure MigState where
  ledger : List Str
  applied : List Str
deriving DecidableEq

/-- Embeds one iteration of the migration loop: skip when the filename
is already in the ledger, otherwise execute the batch and then insert
the ledger row. -/
def applyMigrationFile (st : MigState) (filename : Str) : MigState :=
  if filename ∈ st.ledger then st
  else ⟨st.ledger ++ [filename], st.applied ++ [filename]⟩

/-- Embeds runMigrations over a directory listing. -/
def runMigrations (st : MigState) (files : List Str) : MigState :=
  (migrationOrder files).foldl applyMigrationFile st

/-- One error value of the classifier heap: optional string code,
optional string message, and the cause link as a heap index. A falsy
or non-object cause is `none`. -/
structure ErrNode where
  code : Option Str
  message : Option Str
  cause : Option Nat
deriving DecidableEq

def SERVICE_UNAVAILABLE_DB_CODES : List Str :=
  [("08000".toList), ("08001".toList), ("08003".toList), ("08004".toList),
   ("08006".toList), ("08007".toList), ("08P01".toList), ("28P01".toList),
   ("3D000".toList), ("42P01".toList), ("53300".toList), ("57P01".toList),
   ("57P02".toList), ("57P03".toList), ("ETIMEDOUT".toList), ("ECONNREFUSED".toList),
   ("ECONNRESET".toList), ("EPIPE".toList), ("ENOTFOUND".toList), ("EAI_AGAIN".toList)]

def MESSAGE_HINTS : List Str :=
  [("connection terminated unexpectedly".toList),
   ("could not connect to server".toList),
   ("database system is starting up".toList),
   ("timeout".toList),
   ("connection refused".toList)]

/-- Embeds the loop body checks of isServiceUnavailableError: a truthy
string code in the code set, or a truthy lowercased message containing
one of the hints. -/
def nodeMatches (n : ErrNode) : Bool :=
  (match n.code with
   | some c => decide (c ≠ []) && decide (c ∈ SERVICE_UNAVAILABLE_DB_CODES)
   | none => false)
  ||
  (match n.message with
   | some m =>
     decide (lowerStr m ≠ []) && MESSAGE_HINTS.any (fun hint => strContainsStr (lowerStr m) hint)
   | none => false)

/-- Embeds the while loop of isServiceUnavailableError with explicit
fuel. Heap indices stand for JS object identities, `seen` is the
visited set, and a falsy current value is `none`. -/
def classifierGo (heap : List ErrNode) : Option Nat → List Nat → Nat → Bool
  | _, _, 0 => false
  | none, _, _ + 1 => false
  | some i, seen, fuel + 1 =>
    if i ∈ seen then false
    else
      match heap[i]? with
      | none => false
      | some n => if nodeMatches n then true else classifierGo heap n.cause (i :: seen) fuel

/-- Embeds isServiceUnavailableError. With the visited set, the loop
runs at most heap.length + 1 times, so that much fuel is exact. -/
def isServiceUnavailableError (heap : List ErrNode) (root : Option Nat) : Bool :=
  classifierGo heap root [] (heap.length + 1)

/-- Reachability along cause links in the classifier heap. -/
inductive Reaches (heap : List ErrNode) : Nat → Nat → Prop where
  | refl (i : Nat) : Reaches heap i i
  | step {i j k : Nat} (n : ErrNode) (hget : heap[i]? = some n) (hcause : n.cause = some j)
      (htail : Reaches heap j k) : Reaches heap i k

/-- Reachability from an optional root; nothing is reachable from a
falsy error value. -/
def ReachesOpt (heap : List ErrNode) : Option Nat → Nat → Prop
  | none, _ => False
  | some i, k => Reaches heap i k

/-- The node at index i exists and satisfies the transient-condition
checks of the classifier. -/
def matchingAt (heap : List ErrNode) (i : Nat) : Prop :=
  ∃ n, heap[i]? = some n ∧ nodeMatches n = true

/-- Number of valid heap indices not yet in the visited set; the
decreasing measure of the classifier loop. -/
def unvisitedCount (heap : List ErrNode) (seen : List Nat) : Nat :=
  ((Finset.range heap.length).filter (fun j => j ∉ seen)).card

lemma parseCookieEntryList_eq_none (decode : Str → Option Str) (key : Str) :
    ∀ l : List Str, (∀ x ∈ l, cookieEntryKey x ≠ key) → parseCookieEntryList decode key l = none := by
  intro l
  induction l with
  | nil => intro _; rfl
  | cons a t ih =>
    intro hall
    have ha : cookieEntryKey a ≠ key := hall a (List.mem_cons_self a t)
    rw [parseCookieEntryList, if_pos ha]
    exact ih (fun x hx => hall x (List.mem_cons_of_mem a hx))

lemma parseCookieEntryList_found (decode : Str → Option Str) (key : Str) (e : Str)
    (rest : List Str) :
    ∀ pre : List Str, (∀ x ∈ pre, cookieEntryKey x ≠ key) → cookieEntryKey e = key →
      parseCookieEntryList decode key (pre ++ e :: rest)
        = if cookieEntryValue e = [] then none
          else some ((decode (cookieEntryValue e)).getD (cookieEntryValue e)) := by
  intro pre
  induction pre with
  | nil =>
    intro _ hkey
    rw [List.nil_append, parseCookieEntryList, if_neg (by simp [hkey])]
  | cons a t ih =>
    intro hall hkey
    have ha : cookieEntryKey a ≠ key := hall a (List.mem_cons_self a t)
    rw [List.cons_append, parseCookieEntryList, if_pos ha]
    exact ih (fun x hx => hall x (List.mem_cons_of_mem a hx)) hkey

/-- C7: cookie token extraction is total and never throws: an absent or
empty header yields no token; when no entry carries the key the result
is null; when the first entry carrying the key has an empty value the
result is null; otherwise the value is returned percent-decoded, with
the raw value kept when decoding would throw. -/
theorem parseCookieHeader_spec (decode : Str → Option Str) (key : Str) :
    parseCookieHeader decode none key = none
    ∧ parseCookieHeader decode (some []) key = none
    ∧ (∀ h : Str, (∀ e ∈ splitOnChar semiCh h, cookieEntryKey e ≠ key) →
        parseCookieHeader decode (some h) key = none)
    ∧ (∀ (h : Str) (pre : List Str) (e : Str) (rest : List Str),
        splitOnChar semiCh h = pre ++ e :: rest →
        (∀ x ∈ pre, cookieEntryKey x ≠ key) →
        cookieEntryKey e = key →
        parseCookieHeader decode (some h) key
          = if cookieEntryValue e = [] then none
            else some ((decode (cookieEntryValue e)).getD (cookieEntryValue e))) := by
  refine ⟨rfl, rfl, ?_, ?_⟩
  · intro h hall
    by_cases hh : h = []
    · subst hh; rfl
    · rw [parseCookieHeader, if_neg hh]
      exact parseCookieEntryList_eq_none decode key _ hall
  · intro h pre e rest hsplit hpre hkey
    by_cases hh : h = []
    · subst hh
      have hsplit2 : ([[]] : List Str) = pre ++ e :: rest := hsplit
      cases pre with
      | cons b t =>
        have h2 : ([] : List Str) = t ++ e :: rest := (List.cons.inj (List.cons_append b t (e :: rest) ▸ hsplit2)).2
        exact (List.cons_ne_nil e rest (List.append_eq_nil.mp h2.symm).2).elim
      | nil =>
        rw [List.nil_append] at hsplit2
        have he : e = [] := ((List.cons.inj hsplit2).1).symm
        subst he
        rfl
    · rw [parseCookieHeader, if_neg hh, hsplit]
      exact parseCookieEntryList_found decode key e rest pre hpre hkey

/-- Identity percent-decoder: every value decodes to itself. -/
def idDecode : Str → Option Str := fun s => some s

/-- Concrete injective stand-in for the token fingerprint in witnesses. -/
def hashSharp : Str → Str := fun s => '#' :: s

/-- Witness for C7 on a concrete header carrying a sid cookie. -/
theorem parseCookieHeader_spec_witness :
    parseCookieHeader idDecode (some ("a=b; sid=xyz".toList)) sidKey = some ("xyz".toList) :=
  ((parseCookieHeader_spec idDecode sidKey).2.2.2 ("a=b; sid=xyz".toList) [("a=b".toList)]
    (" sid=xyz".toList) [] (by decide) (by decide) (by decide)).trans (by decide)

/-- C10: a sid cookie present with an empty value yields no token:
parsing returns null rather than the empty string, and attach treats
the request as anonymous and leaves the database untouched, whatever
sessions the database holds. -/
theorem empty_sid_value_is_anonymous (decode : Str → Option Str) (sha256 : Str → Str)
    (db : Db) (now : Nat) (touchFails : Bool)
    (h : Str) (pre : List Str) (e : Str) (rest : List Str)
    (hsplit : splitOnChar semiCh h = pre ++ e :: rest)
    (hpre : ∀ x ∈ pre, cookieEntryKey x ≠ sidKey)
    (hkey : cookieEntryKey e = sidKey)
    (hval : cookieEntryValue e = []) :
    parseCookieHeader decode (some h) sidKey = none
    ∧ attachAuth decode sha256 ⟨none, some h⟩ db now touchFails = Except.ok (none, db) := by
  have hp : parseCookieHeader decode (some h) sidKey = none := by
    by_cases hh : h = []
    · subst hh; rfl
    · rw [parseCookieHeader, if_neg hh, hsplit,
        parseCookieEntryList_found decode sidKey e rest pre hpre hkey, if_pos hval]
  have hg : getSidFromRequest decode ⟨none, some h⟩ = none := hp
  exact ⟨hp, by simp only [attachAuth, hg]⟩

/-- Witness for C10: header sid= with a live session stored under the
fingerprint of the empty token; attach still stays anonymous. -/
theorem empty_sid_value_is_anonymous_witness :
    parseCookieHeader idDecode (some ("a=1; sid=".toList)) sidKey = none
    ∧ attachAuth idDecode hashSharp ⟨none, some ("a=1; sid=".toList)⟩
        ⟨[⟨("u1".toList), ("a@x.com".toList), ("ph".toList)⟩],
         [⟨("s1".toList), ("u1".toList), ['#'], 10, 0⟩], []⟩ 0 false
        = Except.ok (none, ⟨[⟨("u1".toList), ("a@x.com".toList), ("ph".toList)⟩],
            [⟨("s1".toList), ("u1".toList), ['#'], 10, 0⟩], []⟩) :=
  empty_sid_value_is_anonymous idDecode hashSharp
    ⟨[⟨("u1".toList), ("a@x.com".toList), ("ph".toList)⟩],
     [⟨("s1".toList), ("u1".toList), ['#'], 10, 0⟩], []⟩ 0 false
    ("a=1; sid=".toList) [("a=1".toList)] (" sid=".toList) []
    (by decide) (by decide) (by decide) (by decide)

/-- C5: a login with an unknown email and a login with a known email
but wrong password are externally identical: both reply 401 with body
Invalid credentials, set no cookie, and leave the database unchanged. -/
theorem login_enumeration_safe (sha256 : Str → Str) (verify : Str → Str → Bool)
    (dbA : Db) (emailA pwA sidA sessA : Str) (nowA expA : Nat)
    (dbB : Db) (emailB pwB sidB sessB : Str) (nowB expB : Nat) (userB : DbUser)
    (hA : findUserByEmail dbA emailA = none)
    (hB : findUserByEmail dbB emailB = some userB)
    (hpw : verify pwB userB.password_hash = false) :
    (loginUser sha256 verify dbA emailA pwA sidA sessA nowA expA).1
      = (loginUser sha256 verify dbB emailB pwB sidB sessB nowB expB).1
    ∧ (loginUser sha256 verify dbA emailA pwA sidA sessA nowA expA).1
      = ⟨401, ApiBody.errorMsg invalidCredentialsMsg, CookieEffect.noChange⟩
    ∧ (loginUser sha256 verify dbA emailA pwA sidA sessA nowA expA).2 = dbA
    ∧ (loginUser sha256 verify dbB emailB pwB sidB sessB nowB expB).2 = dbB := by
  simp [loginUser, hA, hB, hpw]

/-- Witness for C5 at concrete databases. -/
theorem login_enumeration_safe_witness :
    (loginUser hashSharp (fun p h2 => p == h2) ⟨[], [], []⟩ ("ghost@x.com".toList)
      ("pw".toList) ("t1".toList) ("s1".toList) 0 10).1
    = (loginUser hashSharp (fun p h2 => p == h2)
        ⟨[⟨("u1".toList), ("a@x.com".toList), ("pw".toList)⟩], [], []⟩ ("a@x.com".toList)
        ("bad".toList) ("t2".toList) ("s2".toList) 0 10).1
    ∧ (loginUser hashSharp (fun p h2 => p == h2) ⟨[], [], []⟩ ("ghost@x.com".toList)
        ("pw".toList) ("t1".toList) ("s1".toList) 0 10).1
      = ⟨401, ApiBody.errorMsg invalidCredentialsMsg, CookieEffect.noChange⟩ := by
  have h := login_enumeration_safe hashSharp (fun p h2 => p == h2)
    ⟨[], [], []⟩ ("ghost@x.com".toList) ("pw".toList) ("t1".toList) ("s1".toList) 0 10
    ⟨[⟨("u1".toList), ("a@x.com".toList), ("pw".toList)⟩], [], []⟩ ("a@x.com".toList)
    ("bad".toList) ("t2".toList) ("s2".toList) 0 10
    ⟨("u1".toList), ("a@x.com".toList), ("pw".toList)⟩
    (by decide) (by decide) (by decide)
  exact ⟨h.1, h.2.1⟩

/-- C8: logout never errors for any cookie state: it always replies 204
with no body and clears the cookie; with a sid cookie present the
sessions matching its fingerprint are removed (a no-op when none
matches), and with no cookie the database is untouched. -/
theorem logout_spec (decode : Str → Option Str) (sha256 : Str → Str)
    (request : AuthRequest) (db : Db) :
    (logoutUser decode sha256 request db).1 = ⟨204, ApiBody.empty, CookieEffect.clearSid⟩
    ∧ (getSidFromRequest decode request = none → (logoutUser decode sha256 request db).2 = db)
    ∧ (∀ sid, getSidFromRequest decode request = some sid →
        (logoutUser decode sha256 request db).2.sessions
          = db.sessions.filter (fun s => decide (s.token_hash ≠ sha256 sid)))
    ∧ (∀ sid, getSidFromRequest decode request = some sid →
        (∀ s ∈ db.sessions, s.token_hash ≠ sha256 sid) →
        (logoutUser decode sha256 request db).2 = db) := by
  cases hg : getSidFromRequest decode request with
  | none =>
    refine ⟨by simp [logoutUser, hg], fun _ => by simp [logoutUser, hg], ?_, ?_⟩
    · intro sid hs; exact absurd hs (by simp)
    · intro sid hs; exact absurd hs (by simp)
  | some sid0 =>
    refine ⟨by simp [logoutUser, hg], fun hc => absurd hc (by simp), ?_, ?_⟩
    · intro sid hs
      have hss : sid0 = sid := Option.some.inj hs
      subst hss
      simp only [logoutUser, hg]
      rw [deleteSessionByTokenHash]
    · intro sid hs hall
      have hss : sid0 = sid := Option.some.inj hs
      subst hss
      have hfil : db.sessions.filter (fun s => decide (s.token_hash ≠ sha256 sid0))
          = db.sessions := by
        apply List.filter_eq_self.mpr
        intro s hsmem
        simpa using hall s hsmem
      simp only [logoutUser, hg]
      rw [deleteSessionByTokenHash, hfil]

/-- Witness for C8: logout with a cookie whose fingerprint matches no
session, and logout with no cookie at all. -/
theorem logout_spec_witness :
    (logoutUser idDecode hashSharp ⟨some ("tok".toList), none⟩
        ⟨[], [⟨("s1".toList), ("u1".toList), ("other".toList), 10, 0⟩], []⟩).1
      = ⟨204, ApiBody.empty, CookieEffect.clearSid⟩
    ∧ (logoutUser idDecode hashSharp ⟨some ("tok".toList), none⟩
        ⟨[], [⟨("s1".toList), ("u1".toList), ("other".toList), 10, 0⟩], []⟩).2
      = ⟨[], [⟨("s1".toList), ("u1".toList), ("other".toList), 10, 0⟩], []⟩ := by
  have h := logout_spec idDecode hashSharp ⟨some ("tok".toList), none⟩
    ⟨[], [⟨("s1".toList), ("u1".toList), ("other".toList), 10, 0⟩], []⟩
  exact ⟨h.1, h.2.2.2 ("tok".toList) (by decide) (by decide)⟩

lemma loginUser_success_db (sha256 : Str → Str) (verify : Str → Str → Bool) (db : Db)
    (email pw sid sess : Str) (now expiresAt : Nat) (user : DbUser)
    (huser : findUserByEmail db email = some user)
    (hpw : verify pw user.password_hash = true) :
    (loginUser sha256 verify db email pw sid sess now expiresAt).2
      = ⟨db.users,
         (db.sessions.filter (fun s => decide (s.user_id ≠ user.id)))
           ++ [⟨sess, user.id, sha256 sid, expiresAt, 0⟩],
         db.profiles⟩ := by
  simp only [loginUser, huser, hpw, deleteSessionsByUserId, createSession, if_true]

lemma findSessionByTokenHash_eq_some (db : Db) (now : Nat) (th : Str)
    (row : DbSession) (u : DbUser)
    (hrow : db.sessions.find?
        (fun s => decide (s.token_hash = th) && decide (now < s.expires_at)) = some row)
    (hu : db.users.find? (fun u2 => decide (u2.id = row.user_id)) = some u) :
    findSessionByTokenHash db now th
      = some ⟨row.id, row.user_id, u.email, row.expires_at,
          (db.profiles.find? (fun p => decide (p.user_id = u.id))).map DbProfile.id⟩ := by
  unfold findSessionByTokenHash
  rw [hrow]
  dsimp only
  rw [hu]

lemma findSessionByTokenHash_eq_none (db : Db) (now : Nat) (th : Str)
    (h : db.sessions.find?
        (fun s => decide (s.token_hash = th) && decide (now < s.expires_at)) = none) :
    findSessionByTokenHash db now th = none := by
  unfold findSessionByTokenHash
  rw [h]

lemma attachAuth_anon (decode : Str → Option Str) (sha256 : Str → Str) (request : AuthRequest)
    (db : Db) (now : Nat) (tf : Bool) (sid : Str)
    (hsid : getSidFromRequest decode request = some sid)
    (hnone : findSessionByTokenHash db now (sha256 sid) = none) :
    attachAuth decode sha256 request db now tf = Except.ok (none, db) := by
  unfold attachAuth
  rw [hsid]
  dsimp only
  rw [hnone]

/-- C1: two sequential successful logins for the same user leave exactly
the second session in the store: the only session row of the user is
the new one, the second fingerprint resolves to a live session, the
first fingerprint resolves to nothing at any time, and attach with the
first token yields an anonymous principal. -/
theorem login_single_session
    (sha256 : Str → Str) (verify : Str → Str → Bool) (decode : Str → Option Str)
    (db0 : Db) (email pw t1 t2 s1 s2 : Str) (now1 now2 exp1 exp2 : Nat) (user : DbUser)
    (huser : findUserByEmail db0 email = some user)
    (hpw : verify pw user.password_hash = true)
    (hfresh1 : ∀ s ∈ db0.sessions, s.token_hash ≠ sha256 t1)
    (hfresh2 : ∀ s ∈ db0.sessions, s.token_hash ≠ sha256 t2)
    (hdist : sha256 t1 ≠ sha256 t2)
    (hlive : now2 < exp2)
    (ht1 : t1 ≠ []) :
    ∀ db2 : Db,
      db2 = (loginUser sha256 verify
              (loginUser sha256 verify db0 email pw t1 s1 now1 exp1).2
              email pw t2 s2 now2 exp2).2 →
      db2.sessions.filter (fun s => decide (s.user_id = user.id))
          = [(⟨s2, user.id, sha256 t2, exp2, 0⟩ : DbSession)]
      ∧ (∃ lk, findSessionByTokenHash db2 now2 (sha256 t2) = some lk
          ∧ lk.session_id = s2 ∧ lk.user_id = user.id ∧ lk.expires_at = exp2)
      ∧ (∀ m, findSessionByTokenHash db2 m (sha256 t1) = none)
      ∧ attachAuth decode sha256 ⟨some t1, none⟩ db2 now2 false = Except.ok (none, db2) := by
  intro db2 hdb2
  have hdb1 : (loginUser sha256 verify db0 email pw t1 s1 now1 exp1).2
      = ⟨db0.users,
         (db0.sessions.filter (fun s : DbSession => decide (s.user_id ≠ user.id)))
           ++ [(⟨s1, user.id, sha256 t1, exp1, 0⟩ : DbSession)],
         db0.profiles⟩ :=
    loginUser_success_db sha256 verify db0 email pw t1 s1 now1 exp1 user huser hpw
  rw [hdb1] at hdb2
  have hdb2e : db2
      = ⟨db0.users,
         ((db0.sessions.filter (fun s : DbSession => decide (s.user_id ≠ user.id)))
             ++ [(⟨s1, user.id, sha256 t1, exp1, 0⟩ : DbSession)]).filter
               (fun s : DbSession => decide (s.user_id ≠ user.id))
           ++ [(⟨s2, user.id, sha256 t2, exp2, 0⟩ : DbSession)],
         db0.profiles⟩ := by
    rw [hdb2]
    exact loginUser_success_db sha256 verify _ email pw t2 s2 now2 exp2 user huser hpw
  have hsess : db2.sessions
      = (db0.sessions.filter (fun s : DbSession => decide (s.user_id ≠ user.id)))
          ++ [(⟨s2, user.id, sha256 t2, exp2, 0⟩ : DbSession)] := by
    rw [hdb2e]
    simp [List.filter_append, List.filter_filter]
  have husers : db2.users = db0.users := by rw [hdb2e]
  have hprofiles : db2.profiles = db0.profiles := by rw [hdb2e]
  have hmemF1 : ∀ s : DbSession,
      s ∈ db0.sessions.filter (fun s : DbSession => decide (s.user_id ≠ user.id)) →
        s ∈ db0.sessions ∧ s.user_id ≠ user.id := by
    intro s hs
    exact ⟨List.mem_of_mem_filter hs, by simpa using List.of_mem_filter hs⟩
  have hnone1 : ∀ m : Nat, db2.sessions.find?
      (fun s => decide (s.token_hash = sha256 t1) && decide (m < s.expires_at)) = none := by
    intro m
    apply List.find?_eq_none.mpr
    intro x hx
    rw [hsess] at hx
    simp only [Bool.and_eq_true, decide_eq_true_eq, not_and]
    intro hhash
    rcases List.mem_append.mp hx with hxf | hxr
    · exact absurd hhash (hfresh1 x (hmemF1 x hxf).1)
    · have hx2 : x = (⟨s2, user.id, sha256 t2, exp2, 0⟩ : DbSession) := by simpa using hxr
      rw [hx2] at hhash
      exact absurd hhash.symm hdist
  refine ⟨?_, ?_, ?_, ?_⟩
  · rw [hsess, List.filter_append]
    have h1 : (db0.sessions.filter (fun s : DbSession => decide (s.user_id ≠ user.id))).filter
        (fun s : DbSession => decide (s.user_id = user.id)) = [] := by
      apply List.filter_eq_nil_iff.mpr
      intro s hs
      simpa using (hmemF1 s hs).2
    rw [h1]
    simp
  · have hfind : db2.sessions.find?
        (fun s => decide (s.token_hash = sha256 t2) && decide (now2 < s.expires_at))
        = some (⟨s2, user.id, sha256 t2, exp2, 0⟩ : DbSession) := by
      rw [hsess, List.find?_append]
      have hnone : (db0.sessions.filter (fun s : DbSession => decide (s.user_id ≠ user.id))).find?
          (fun s => decide (s.token_hash = sha256 t2) && decide (now2 < s.expires_at))
          = none := by
        apply List.find?_eq_none.mpr
        intro x hx
        simp only [Bool.and_eq_true, decide_eq_true_eq, not_and]
        intro hhash
        exact absurd hhash (hfresh2 x (hmemF1 x hx).1)
      rw [hnone]
      simp [List.find?, hlive]
    have humem : user ∈ db0.users := List.mem_of_find?_eq_some huser
    have huid : (db0.users.find? (fun u2 => decide (u2.id = user.id))).isSome := by
      apply List.find?_isSome.mpr
      exact ⟨user, humem, by simp⟩
    obtain ⟨u2, hu2⟩ := Option.isSome_iff_exists.mp huid
    have hu2b : db2.users.find? (fun u2 => decide (u2.id = user.id)) = some u2 := by
      rw [husers]; exact hu2
    exact ⟨_, findSessionByTokenHash_eq_some db2 now2 (sha256 t2)
      (⟨s2, user.id, sha256 t2, exp2, 0⟩ : DbSession) u2 hfind hu2b, rfl, rfl, rfl⟩
  · intro m
    exact findSessionByTokenHash_eq_none db2 m (sha256 t1) (hnone1 m)
  · have hsid : getSidFromRequest decode ⟨some t1, none⟩ = some t1 := by
      unfold getSidFromRequest
      dsimp only
      rw [if_pos ht1]
    exact attachAuth_anon decode sha256 ⟨some t1, none⟩ db2 now2 false t1 hsid
      (findSessionByTokenHash_eq_none db2 now2 (sha256 t1) (hnone1 now2))

/-- Concrete database for the double-login witness: one user with one
pre-existing session. -/
def c1Db : Db :=
  ⟨[⟨("u1".toList), ("a@x.com".toList), ("pw".toList)⟩],
   [⟨("s0".toList), ("u1".toList), ("old".toList), 100, 0⟩], []⟩

/-- Plain-comparison stand-in for verifyPassword in witnesses. -/
def c1Verify : Str → Str → Bool := fun p h2 => p == h2

/-- Database state after logging the witness user in twice. -/
def c1Db2 : Db :=
  (loginUser hashSharp c1Verify
    (loginUser hashSharp c1Verify c1Db ("a@x.com".toList) ("pw".toList)
      ("tokA".toList) ("sA".toList) 0 50).2
    ("a@x.com".toList) ("pw".toList) ("tokB".toList) ("sB".toList) 1 60).2

/-- Witness for C1 on the concrete double login. -/
theorem login_single_session_witness :
    c1Db2.sessions.filter (fun s => decide (s.user_id = ("u1".toList)))
        = [(⟨("sB".toList), ("u1".toList), hashSharp ("tokB".toList), 60, 0⟩ : DbSession)]
    ∧ (∃ lk, findSessionByTokenHash c1Db2 1 (hashSharp ("tokB".toList)) = some lk
        ∧ lk.session_id = ("sB".toList) ∧ lk.user_id = ("u1".toList) ∧ lk.expires_at = 60)
    ∧ (∀ m, findSessionByTokenHash c1Db2 m (hashSharp ("tokA".toList)) = none)
    ∧ attachAuth idDecode hashSharp ⟨some ("tokA".toList), none⟩ c1Db2 1 false
        = Except.ok (none, c1Db2) :=
  login_single_session hashSharp c1Verify idDecode c1Db ("a@x.com".toList) ("pw".toList)
    ("tokA".toList) ("tokB".toList) ("sA".toList) ("sB".toList) 0 1 50 60
    ⟨("u1".toList), ("a@x.com".toList), ("pw".toList)⟩
    (by decide) (by decide) (by decide) (by decide) (by decide) (by decide) (by decide)
    c1Db2 rfl

instance {e a : Type} [DecidableEq e] [DecidableEq a] : DecidableEq (Except e a) := fun x y =>
  match x, y with
  | Except.error x1, Except.error y1 =>
    if h : x1 = y1 then isTrue (congrArg Except.error h)
    else isFalse (fun hc => h (Except.error.inj hc))
  | Except.ok x1, Except.ok y1 =>
    if h : x1 = y1 then isTrue (congrArg Except.ok h)
    else isFalse (fun hc => h (Except.ok.inj hc))
  | Except.error _, Except.ok _ => isFalse (fun hc => Except.noConfusion hc)
  | Except.ok _, Except.error _ => isFalse (fun hc => Except.noConfusion hc)

/-- Database with one live session for the touch-failure scenario. -/
def c6Db : Db :=
  ⟨[⟨("u1".toList), ("a@x.com".toList), ("ph".toList)⟩],
   [⟨("s1".toList), ("u1".toList), '#' :: ("tok".toList), 10, 0⟩], []⟩

/-- C6 (divergence from the spec): with a valid live session cookie the
lookup succeeds, yet when the touchSession statement fails attachAuth
propagates the failure as an error instead of completing with the
principal bound; without the fault the same request attaches fine. The
source awaits touchSession with no catch, so the failure reaches the
parent request. -/
theorem attach_touch_failure_propagates :
    (findSessionByTokenHash c6Db 0 (hashSharp ("tok".toList))).isSome = true
    ∧ attachAuth idDecode hashSharp ⟨some ("tok".toList), none⟩ c6Db 0 true
        = Except.error ()
    ∧ attachAuth idDecode hashSharp ⟨some ("tok".toList), none⟩ c6Db 0 false
        ≠ Except.error () := by decide

/-- Number of occurrences of a filename in a list, by list filtering. -/
def countOcc (x : Str) (l : List Str) : Nat :=
  (l.filter (fun y => decide (y = x))).length

lemma countOcc_eq_zero (l : List Str) (x : Str) (hx : x ∉ l) : countOcc x l = 0 := by
  have hfil : l.filter (fun y => decide (y = x)) = [] := by
    apply List.filter_eq_nil_iff.mpr
    intro a ha
    simp only [decide_eq_true_eq]
    intro he
    exact hx (he ▸ ha)
  rw [countOcc, hfil]
  rfl

lemma countOcc_eq_one : ∀ (l : List Str) (x : Str), l.Nodup → x ∈ l → countOcc x l = 1 := by
  intro l
  induction l with
  | nil => intro x _ hx; exact absurd hx (List.not_mem_nil x)
  | cons a t ih =>
    intro x hnd hx
    by_cases he : a = x
    · rw [countOcc, List.filter_cons, if_pos (by simpa using he)]
      have hxt : x ∉ t := he ▸ (List.nodup_cons.mp hnd).1
      have hfil : t.filter (fun y => decide (y = x)) = [] := by
        apply List.filter_eq_nil_iff.mpr
        intro b hb
        simp only [decide_eq_true_eq]
        intro hbe
        exact hxt (hbe ▸ hb)
      rw [hfil]
      rfl
    · rcases List.mem_cons.mp hx with h1 | h2
      · exact absurd h1.symm he
      · have := ih x (List.nodup_cons.mp hnd).2 h2
        rw [countOcc, List.filter_cons, if_neg (by simpa using he)]
        exact this

lemma foldl_applyMigrationFile_skip :
    ∀ (fs : List Str) (st : MigState), (∀ f ∈ fs, f ∈ st.ledger) →
      fs.foldl applyMigrationFile st = st := by
  intro fs
  induction fs with
  | nil => intro st _; rfl
  | cons a t ih =>
    intro st h
    have ha : applyMigrationFile st a = st := by
      rw [applyMigrationFile, if_pos (h a (List.mem_cons_self a t))]
    rw [List.foldl_cons, ha]
    exact ih st (fun f hf => h f (List.mem_cons_of_mem a hf))

lemma foldl_applyMigrationFile_fresh :
    ∀ (fs led ap : List Str), fs.Nodup → (∀ f ∈ fs, f ∉ led) →
      fs.foldl applyMigrationFile ⟨led, ap⟩ = ⟨led ++ fs, ap ++ fs⟩ := by
  intro fs
  induction fs with
  | nil => intro led ap _ _; simp
  | cons a t ih =>
    intro led ap hnd h
    have ha : applyMigrationFile ⟨led, ap⟩ a = ⟨led ++ [a], ap ++ [a]⟩ := by
      rw [applyMigrationFile, if_neg (h a (List.mem_cons_self a t))]
    have hfresh : ∀ f ∈ t, f ∉ led ++ [a] := by
      intro f hf hmem
      rcases List.mem_append.mp hmem with h1 | h2
      · exact h f (List.mem_cons_of_mem a hf) h1
      · exact (List.nodup_cons.mp hnd).1 ((by simpa using h2 : f = a) ▸ hf)
    rw [List.foldl_cons, ha, ih (led ++ [a]) (ap ++ [a]) (List.nodup_cons.mp hnd).2 hfresh]
    simp

/-- C2: from an empty ledger the runner applies each .sql file exactly
once; a second complete run changes nothing, and after the two runs
ledger and execution trace hold exactly one row per migration file. -/
theorem runMigrations_idempotent (files : List Str) (hnd : files.Nodup) :
    (runMigrations ⟨[], []⟩ files).ledger = migrationOrder files
    ∧ (runMigrations ⟨[], []⟩ files).applied = migrationOrder files
    ∧ runMigrations (runMigrations ⟨[], []⟩ files) files = runMigrations ⟨[], []⟩ files
    ∧ (∀ f, countOcc f (runMigrations (runMigrations ⟨[], []⟩ files) files).ledger
        = if f ∈ migrationOrder files then 1 else 0)
    ∧ (∀ f, countOcc f (runMigrations (runMigrations ⟨[], []⟩ files) files).applied
        = if f ∈ migrationOrder files then 1 else 0) := by
  have hndm : (migrationOrder files).Nodup :=
    (List.perm_insertionSort _ _).symm.nodup (hnd.filter _)
  have h1 : runMigrations ⟨[], []⟩ files = ⟨migrationOrder files, migrationOrder files⟩ := by
    rw [runMigrations]
    have := foldl_applyMigrationFile_fresh (migrationOrder files) [] [] hndm (by simp)
    simpa using this
  have h2 : runMigrations ⟨migrationOrder files, migrationOrder files⟩ files
      = ⟨migrationOrder files, migrationOrder files⟩ := by
    rw [runMigrations]
    exact foldl_applyMigrationFile_skip (migrationOrder files) _ (fun f hf => hf)
  refine ⟨by rw [h1], by rw [h1], by rw [h1, h2], ?_, ?_⟩
  · intro f
    rw [h1, h2]
    by_cases hmem : f ∈ migrationOrder files
    · rw [if_pos hmem]
      exact countOcc_eq_one _ f hndm hmem
    · rw [if_neg hmem]
      exact countOcc_eq_zero _ f hmem
  · intro f
    rw [h1, h2]
    by_cases hmem : f ∈ migrationOrder files
    · rw [if_pos hmem]
      exact countOcc_eq_one _ f hndm hmem
    · rw [if_neg hmem]
      exact countOcc_eq_zero _ f hmem

/-- Directory listing used by the migration witnesses: two .sql files
given out of order plus one file with another extension. -/
def migFiles : List Str :=
  [("002_b.sql".toList), ("001_a.sql".toList), ("notes.txt".toList)]

/-- Witness for C2 on the concrete listing. -/
theorem runMigrations_idempotent_witness :
    (runMigrations ⟨[], []⟩ migFiles).ledger = migrationOrder migFiles
    ∧ (runMigrations ⟨[], []⟩ migFiles).applied = migrationOrder migFiles
    ∧ runMigrations (runMigrations ⟨[], []⟩ migFiles) migFiles = runMigrations ⟨[], []⟩ migFiles
    ∧ (∀ f, countOcc f (runMigrations (runMigrations ⟨[], []⟩ migFiles) migFiles).ledger
        = if f ∈ migrationOrder migFiles then 1 else 0)
    ∧ (∀ f, countOcc f (runMigrations (runMigrations ⟨[], []⟩ migFiles) migFiles).applied
        = if f ∈ migrationOrder migFiles then 1 else 0) :=
  runMigrations_idempotent migFiles (by decide)

/-- C4: the application order of the migration runner is exactly the
lexicographically sorted list of the .sql files: it is a permutation of
the filtered listing, it is sorted, only .sql files appear in it, it is
the unique such list, and the runner folds over precisely this list. -/
theorem migration_order_spec (files : List Str) :
    (migrationOrder files).Perm (files.filter (fun n => strEndsWith n sqlSuffix))
    ∧ (migrationOrder files).Sorted (fun a b : Str => a ≤ b)
    ∧ (∀ f ∈ migrationOrder files, strEndsWith f sqlSuffix = true)
    ∧ (∀ l : List Str, l.Perm (files.filter (fun n => strEndsWith n sqlSuffix)) →
        l.Sorted (fun a b : Str => a ≤ b) → l = migrationOrder files)
    ∧ (∀ st : MigState, runMigrations st files
        = (migrationOrder files).foldl applyMigrationFile st) := by
  refine ⟨List.perm_insertionSort _ _, List.sorted_insertionSort _ _, ?_, ?_, fun st => rfl⟩
  · intro f hf
    have hmem : f ∈ files.filter (fun n => strEndsWith n sqlSuffix) :=
      (List.perm_insertionSort _ _).mem_iff.mp hf
    exact (List.mem_filter.mp hmem).2
  · intro l hp hs
    exact List.eq_of_perm_of_sorted (hp.trans (List.perm_insertionSort _ _).symm) hs
      (List.sorted_insertionSort _ _)

/-- Witness for C4: the concrete listing sorts to the two .sql files in
numeric prefix order. -/
theorem migration_order_spec_witness :
    migrationOrder migFiles = [("001_a.sql".toList), ("002_b.sql".toList)] :=
  ((migration_order_spec migFiles).2.2.2.1 [("001_a.sql".toList), ("002_b.sql".toList)]
    (by decide) (by decide)).symm

lemma unvisitedCount_cons (heap : List ErrNode) (seen : List Nat) (i : Nat)
    (hi : i < heap.length) (hnot : i ∉ seen) :
    unvisitedCount heap (i :: seen) + 1 = unvisitedCount heap seen := by
  unfold unvisitedCount
  have hset : (Finset.range heap.length).filter (fun j => j ∉ i :: seen)
      = ((Finset.range heap.length).filter (fun j => j ∉ seen)).erase i := by
    ext j
    simp only [Finset.mem_filter, Finset.mem_erase, Finset.mem_range, List.mem_cons]
    constructor
    · intro ⟨hr, hn⟩
      exact ⟨fun he => hn (Or.inl he), hr, fun hs => hn (Or.inr hs)⟩
    · intro ⟨hne, hr, hn⟩
      exact ⟨hr, fun hc => hc.elim hne hn⟩
  have hmem : i ∈ (Finset.range heap.length).filter (fun j => j ∉ seen) :=
    Finset.mem_filter.mpr ⟨Finset.mem_range.mpr hi, hnot⟩
  have hpos : 0 < ((Finset.range heap.length).filter (fun j => j ∉ seen)).card :=
    Finset.card_pos.mpr ⟨i, hmem⟩
  rw [hset, Finset.card_erase_of_mem hmem]
  omega

lemma getElem?_lt_length (heap : List ErrNode) (i : Nat) (n : ErrNode)
    (h : heap[i]? = some n) : i < heap.length := by
  by_contra hge
  rw [List.getElem?_eq_none (by omega)] at h
  exact Option.noConfusion h

lemma classifierGo_fuel (heap : List ErrNode) :
    ∀ u (cur : Option Nat) (seen : List Nat) (f1 f2 : Nat),
      unvisitedCount heap seen = u → u + 1 ≤ f1 → u + 1 ≤ f2 →
      classifierGo heap cur seen f1 = classifierGo heap cur seen f2 := by
  intro u
  induction u using Nat.strong_induction_on with
  | _ u ih =>
    intro cur seen f1 f2 hu h1 h2
    obtain ⟨g1, rfl⟩ : ∃ g1, f1 = g1 + 1 := ⟨f1 - 1, by omega⟩
    obtain ⟨g2, rfl⟩ : ∃ g2, f2 = g2 + 1 := ⟨f2 - 1, by omega⟩
    cases cur with
    | none => rfl
    | some i =>
      simp only [classifierGo]
      by_cases hmem : i ∈ seen
      · rw [if_pos hmem, if_pos hmem]
      · rw [if_neg hmem, if_neg hmem]
        cases hget : heap[i]? with
        | none => rfl
        | some n =>
          dsimp only
          by_cases hm : nodeMatches n
          · rw [if_pos hm, if_pos hm]
          · rw [if_neg hm, if_neg hm]
            have hi : i < heap.length := getElem?_lt_length heap i n hget
            have hcount := unvisitedCount_cons heap seen i hi hmem
            exact ih (unvisitedCount heap (i :: seen)) (by omega) n.cause (i :: seen) g1 g2
              rfl (by omega) (by omega)

/-- C9: the classifier terminates on every heap, cyclic cause chains
included: the visited set admits each heap node at most once, so the
loop is exhausted within heap.length + 1 iterations and any larger
fuel yields the same outcome as isServiceUnavailableError. -/
theorem classifier_terminates (heap : List ErrNode) (root : Option Nat) (fuel : Nat)
    (hf : heap.length + 1 ≤ fuel) :
    classifierGo heap root [] fuel = isServiceUnavailableError heap root := by
  rw [isServiceUnavailableError]
  have hcount : unvisitedCount heap [] = heap.length := by
    unfold unvisitedCount
    simp
  exact classifierGo_fuel heap heap.length root [] fuel (heap.length + 1) hcount
    (by omega) (by omega)

/-- Two-node cyclic cause chain: each node names the other as cause. -/
def cycHeap : List ErrNode := [⟨none, none, some 1⟩, ⟨none, none, some 0⟩]

/-- Witness for C9 on the cyclic chain: extra fuel changes nothing and
the walk classifies the chain as a normal error. -/
theorem classifier_terminates_witness :
    classifierGo cycHeap (some 0) [] 10 = isServiceUnavailableError cycHeap (some 0)
    ∧ isServiceUnavailableError cycHeap (some 0) = false :=
  ⟨classifier_terminates cycHeap (some 0) 10 (by decide), by decide⟩

lemma classifierGo_true_reaches (heap : List ErrNode) :
    ∀ (fuel : Nat) (cur : Option Nat) (seen : List Nat),
      classifierGo heap cur seen fuel = true →
      ∃ k, ReachesOpt heap cur k ∧ matchingAt heap k := by
  intro fuel
  induction fuel with
  | zero => intro cur seen h; exact absurd h (by simp [classifierGo])
  | succ g ih =>
    intro cur seen h
    cases cur with
    | none => exact absurd h (by simp [classifierGo])
    | some i =>
      simp only [classifierGo] at h
      by_cases hmem : i ∈ seen
      · rw [if_pos hmem] at h
        exact absurd h (by simp)
      · rw [if_neg hmem] at h
        cases hget : heap[i]? with
        | none =>
          rw [hget] at h
          exact absurd h (by simp)
        | some n =>
          rw [hget] at h
          dsimp only at h
          by_cases hm : nodeMatches n
          · exact ⟨i, Reaches.refl i, ⟨n, hget, hm⟩⟩
          · rw [if_neg hm] at h
            obtain ⟨k, hreach, hmatch⟩ := ih n.cause (i :: seen) h
            cases hc : n.cause with
            | none =>
              rw [hc] at hreach
              exact hreach.elim
            | some j =>
              rw [hc] at hreach
              exact ⟨k, Reaches.step n hget hc hreach, hmatch⟩

/-- Invariant of the classifier loop: every visited node is known to be
nonmatching, exists in the heap, and its cause link points either to
the current node or back into the visited set. -/
def SeenClosed (heap : List ErrNode) (cur : Option Nat) (seen : List Nat) : Prop :=
  ∀ j ∈ seen, ¬ matchingAt heap j ∧
    ∃ n, heap[j]? = some n ∧ (n.cause = cur ∨ ∃ j2, n.cause = some j2 ∧ j2 ∈ seen)

lemma reaches_mem_closed (heap : List ErrNode) (S : List Nat)
    (hcl : ∀ j ∈ S, ∀ n, heap[j]? = some n → ∀ j2, n.cause = some j2 → j2 ∈ S) :
    ∀ i k, Reaches heap i k → i ∈ S → k ∈ S := by
  intro i k hr
  induction hr with
  | refl i => intro h; exact h
  | step n hget hcause htail ihr =>
    intro hi
    exact ihr (hcl _ hi n hget _ hcause)

lemma classifierGo_false_closed (heap : List ErrNode) :
    ∀ (fuel : Nat) (cur : Option Nat) (seen : List Nat),
      unvisitedCount heap seen + 1 ≤ fuel →
      SeenClosed heap cur seen →
      classifierGo heap cur seen fuel = false →
      ∀ k, ReachesOpt heap cur k → k ∈ seen ∨ ¬ matchingAt heap k := by
  intro fuel
  induction fuel with
  | zero =>
    intro cur seen hf
    omega
  | succ g ih =>
    intro cur seen hf hclosed hfalse k hreach
    cases cur with
    | none => exact hreach.elim
    | some i =>
      simp only [classifierGo] at hfalse
      by_cases hmem : i ∈ seen
      · have hcl2 : ∀ j ∈ seen, ∀ n, heap[j]? = some n → ∀ j2, n.cause = some j2 → j2 ∈ seen := by
          intro j hj n hn j2 hc
          obtain ⟨_, n2, hn2, hdisj⟩ := hclosed j hj
          rw [hn] at hn2
          have hnn : n = n2 := Option.some.inj hn2
          subst hnn
          rcases hdisj with hcur | ⟨j3, hj3, hj3s⟩
          · rw [hc] at hcur
            rw [Option.some.inj hcur]
            exact hmem
          · rw [hc] at hj3
            rw [Option.some.inj hj3]
            exact hj3s
        exact Or.inl (reaches_mem_closed heap seen hcl2 i k hreach hmem)
      · rw [if_neg hmem] at hfalse
        cases hget : heap[i]? with
        | none =>
          cases hreach with
          | refl =>
            right
            rintro ⟨n2, hn2, _⟩
            rw [hget] at hn2
            exact Option.noConfusion hn2
          | step n2 hg hc ht =>
            rw [hget] at hg
            exact Option.noConfusion hg
        | some n =>
          rw [hget] at hfalse
          dsimp only at hfalse
          by_cases hm : nodeMatches n
          · rw [if_pos hm] at hfalse
            exact Bool.noConfusion hfalse
          · rw [if_neg hm] at hfalse
            have hi : i < heap.length := getElem?_lt_length heap i n hget
            have hnmi : ¬ matchingAt heap i := by
              rintro ⟨n2, hn2, hm2⟩
              rw [hget] at hn2
              exact hm (Option.some.inj hn2 ▸ hm2)
            have hinv : SeenClosed heap n.cause (i :: seen) := by
              intro j hj
              rcases List.mem_cons.mp hj with hji | hjs
              · subst hji
                exact ⟨hnmi, n, hget, Or.inl rfl⟩
              · obtain ⟨hnm2, n2, hn2, hd⟩ := hclosed j hjs
                refine ⟨hnm2, n2, hn2, ?_⟩
                rcases hd with hcur | ⟨j2, hj2, hj2s⟩
                · exact Or.inr ⟨i, hcur, List.mem_cons_self i seen⟩
                · exact Or.inr ⟨j2, hj2, List.mem_cons_of_mem i hj2s⟩
            have hcount := unvisitedCount_cons heap seen i hi hmem
            have hres := ih n.cause (i :: seen) (by omega) hinv hfalse
            cases hreach with
            | refl => exact Or.inr hnmi
            | step n2 hg hc ht =>
              rw [hget] at hg
              have hnn : n = n2 := Option.some.inj hg
              subst hnn
              have hro : ReachesOpt heap n.cause k := by
                rw [hc]
                exact ht
              rcases hres k hro with hks | hnm2
              · rcases List.mem_cons.mp hks with hki | hks2
                · exact Or.inr (hki ▸ hnmi)
                · exact Or.inl hks2
              · exact Or.inr hnm2

/-- C3: the classifier returns true exactly when some error reachable
from its argument along cause links has a string code in the transient
code set or a lowercased message containing one of the hint substrings;
on every other input it returns false. -/
theorem classifier_iff (heap : List ErrNode) (root : Option Nat) :
    isServiceUnavailableError heap root = true
      ↔ ∃ k, ReachesOpt heap root k ∧ matchingAt heap k := by
  constructor
  · intro h
    exact classifierGo_true_reaches heap (heap.length + 1) root [] h
  · rintro ⟨k, hreach, hmatch⟩
    by_contra hfalse
    rw [Bool.not_eq_true] at hfalse
    have hclosed : SeenClosed heap root [] := fun j hj => absurd hj (List.not_mem_nil j)
    have hcount : unvisitedCount heap [] = heap.length := by
      unfold unvisitedCount
      simp
    have hres := classifierGo_false_closed heap (heap.length + 1) root [] (by omega)
      hclosed hfalse k hreach
    rcases hres with hmem | hnm
    · exact absurd hmem (List.not_mem_nil k)
    · exact hnm hmatch

/-- Witness for C3: a single error carrying the connection-refused code
is classified service-unavailable. -/
theorem classifier_iff_witness :
    isServiceUnavailableError [⟨some ("ECONNREFUSED".toList), none, none⟩] (some 0) = true :=
  (classifier_iff [⟨some ("ECONNREFUSED".toList), none, none⟩] (some 0)).mpr
    ⟨0, Reaches.refl 0, ⟨⟨some ("ECONNREFUSED".toList), none, none⟩, rfl, by decide⟩⟩
